import Mathlib

/-!
Verification development for the kinematic-wave overland-flow routing engine
driven by the notebook driver in this repository
(src/KinwaveImplicitOverlandFlow_driver.ipynb).

The repository contains only the driver notebook; the solver component it
invokes (the KinwaveImplicitOverlandFlow class) lives in the external landlab
library.  The driver loop (storm schedule, runoff-rate assignment, calls to
run_one_step) is embedded below directly from the notebook source.  The solver
core (routing-order builder, implicit per-node Newton step, discharge
calculator) is modelled from the specification, as marked on each definition.

Modelling conventions:
- Machine floating-point numbers are modelled by exact rationals (ℚ).
- The depth power law h ↦ h^p (p typically 5/3, an irrational power) is not
  representable inside ℚ, so it is abstracted as a pair of functions
  (the power law and its derivative) bundled in the PowLaw structure; the
  properties the theorems need from it are collected in PowLawOK, and concrete
  instantiations (such as the quadratic law, p = 2) are used as witnesses.
- Links carry the square root of their slope directly (field sqrtSlope),
  since square roots of rationals are in general irrational.
-/

namespace Kinwave

/-- Modelled from the spec (§3 Data Model): a directed link of the routing
graph, from the upstream node to the downstream node, with √slope, width, and
the MFD routing fraction (share of the upstream node's total outflow carried
by this link). -/
structure Link where
  src : ℕ
  dst : ℕ
  sqrtSlope : ℚ
  width : ℚ
  frac : ℚ
deriving DecidableEq

/-- Modelled from the spec (§3 Data Model): the routing graph, an
index-addressed collection of nodes (ids 0..numNodes-1 with per-node
contributing cell area) and directed links. -/
structure RoutingGraph where
  numNodes : ℕ
  area : List ℚ
  links : List Link
deriving DecidableEq

/-- Modelled from the spec (§4.2): global solver configuration — Manning
roughness n (α = 1/n), relative and absolute convergence tolerances, the
maximum Newton iteration count, and the small positive floor used to guard a
zero initial guess. -/
structure SolverParams where
  roughness : ℚ
  relTol : ℚ
  absTol : ℚ
  maxIter : ℕ
  guard : ℚ
deriving DecidableEq

/-- Modelled from the spec (§3): the depth power law h ↦ h^p together with its
derivative h ↦ p·h^(p-1), abstracted as a function pair because the typical
exponent p = 5/3 is not a rational power operation. -/
structure PowLaw where
  pw : ℚ → ℚ
  dpw : ℚ → ℚ

/-- Modelled from the spec (§7 Error Handling Design): the fatal error kinds
of the core.  NonConvergence is deliberately absent: it is non-fatal and is
reported through the warnings field of the step result. -/
inductive HydroError where
  | invalidTopology
  | invalidFractions
  | negativeRunoff
deriving DecidableEq

/-- Modelled from the spec (§3, §4.3): the per-step output record — the
per-node depth array, the two derived discharge fields (total outflow and
total inflow per node), and the list of nodes flagged with the non-fatal
NonConvergence condition. -/
structure StepResult where
  depth : List ℚ
  outflow : List ℚ
  inflow : List ℚ
  warnings : List ℕ
deriving DecidableEq

/-- Basic well-formedness of a routing graph: the area array covers the nodes,
areas are positive, link endpoints are in range and link data nonnegative. -/
def WellFormed (g : RoutingGraph) : Prop :=
  g.area.length = g.numNodes ∧
  (∀ a ∈ g.area, 0 < a) ∧
  ∀ lk ∈ g.links, lk.src < g.numNodes ∧ lk.dst < g.numNodes ∧
    0 ≤ lk.sqrtSlope ∧ 0 ≤ lk.width ∧ 0 ≤ lk.frac

instance (g : RoutingGraph) : Decidable (WellFormed g) := by
  unfold WellFormed
  infer_instance

/-! ## Routing Order Builder (spec §4.1) -/

/-- Modelled from the spec (§4.1): the nodes feeding node v, i.e. the upstream
endpoints of the links entering v. -/
def feeders (g : RoutingGraph) (v : ℕ) : List ℕ :=
  (g.links.filter (fun lk => lk.dst == v)).map (fun lk => lk.src)

/-- Modelled from the spec (§4.1, Kahn's algorithm): the nodes not yet placed
in the order all of whose feeders have already been placed. -/
def readyNodes (g : RoutingGraph) (done : List ℕ) : List ℕ :=
  (List.range g.numNodes).filter
    (fun v => !(decide (v ∈ done)) && (feeders g v).all (fun u => decide (u ∈ done)))

/-- Modelled from the spec (§4.1): fuel-bounded Kahn iteration.  Each round
appends every currently ready node; a round with no ready node while nodes
remain is a detected cycle (result none). -/
def topoSortAux (g : RoutingGraph) : ℕ → List ℕ → Option (List ℕ)
  | 0, done => if g.numNodes ≤ done.length then some done else none
  | fuel + 1, done =>
    if g.numNodes ≤ done.length then some done
    else
      match readyNodes g done with
      | [] => none
      | r => topoSortAux g fuel (done ++ r)

/-- Modelled from the spec (§4.1): the Routing Order Builder.  Returns an
upstream-before-downstream order of all node ids, or none when a cycle is
detected (the InvalidTopology condition). -/
def topoSort (g : RoutingGraph) : Option (List ℕ) :=
  topoSortAux g g.numNodes []

/-- The output contract of the Routing Order Builder: every node appears in
the order after all nodes feeding it. -/
def isTopoOrder (g : RoutingGraph) (l : List ℕ) : Prop :=
  ∀ lk ∈ g.links, lk.dst ∈ l →
    lk.src ∈ l ∧ l.indexOf lk.src < l.indexOf lk.dst

instance (g : RoutingGraph) (l : List ℕ) : Decidable (isTopoOrder g l) := by
  unfold isTopoOrder
  infer_instance

/-- A single directed link from u to v exists in the graph. -/
def isLink (g : RoutingGraph) (u v : ℕ) : Prop :=
  ∃ lk ∈ g.links, lk.src = u ∧ lk.dst = v

/-- Helper for the cycle argument: among the feeders of v, one that is not in
the list done (meaningful when the Kahn iteration has stalled). -/
def pickFeeder (g : RoutingGraph) (done : List ℕ) (v : ℕ) : ℕ :=
  (((feeders g v).find? (fun u => !(decide (u ∈ done)))).getD 0)

/-- A directed path of exactly k links from u to v. -/
def pathLen (g : RoutingGraph) : ℕ → ℕ → ℕ → Prop
  | 0, u, v => u = v
  | k + 1, u, v => ∃ w, isLink g u w ∧ pathLen g k w v

/-- The routing graph contains a directed cycle. -/
def HasCycle (g : RoutingGraph) : Prop :=
  ∃ v k, 0 < k ∧ pathLen g k v v

/-! ## Unit conversion (spec §6) -/

/-- Modelled from the spec (§6): the fixed unit conversion applied to every
supplied runoff intensity before use — millimeters per hour to meters per
second, dividing by exactly 3.6 × 10^6. -/
def mmhrToMs (x : ℚ) : ℚ := x / 3600000

/-! ## Discharge Calculator pieces (spec §4.3) -/

/-- Area of node v (contributing cell area). -/
def areaOf (g : RoutingGraph) (v : ℕ) : ℚ := g.area.getD v 0

/-- Modelled from the spec (§4.2): α = 1/n where n is the roughness. -/
def alphaOf (P : SolverParams) : ℚ := 1 / P.roughness

/-- Modelled from the spec (§4.2, §4.3): the aggregated √S·width factor of a
node, summed over its outgoing links (the √S·width_total of the spec). -/
def swsum (g : RoutingGraph) (v : ℕ) : ℚ :=
  ((g.links.filter (fun lk => lk.src == v)).map
    (fun lk => lk.sqrtSlope * lk.width)).sum

/-- Modelled from the spec (§4.3): the outflow sent along one link — the total
outflow of its upstream node multiplied by the link's routing fraction. -/
def linkDischarge (outflow : List ℚ) (lk : Link) : ℚ :=
  outflow.getD lk.src 0 * lk.frac

/-- Modelled from the spec (§4.3): the total inflow of node v — the sum of the
per-link outflow contributions over all links entering v. -/
def inflowOf (g : RoutingGraph) (outflow : List ℚ) (v : ℕ) : ℚ :=
  ((g.links.filter (fun lk => lk.dst == v)).map (linkDischarge outflow)).sum

/-! ## Implicit per-node solve (spec §4.2) -/

/-- Modelled from the spec (§4.2): the constant c = (dt/A)·α·√S·width_total of
the per-node backward-Euler equation h + c·h^p = b. -/
def cOf (g : RoutingGraph) (P : SolverParams) (dt : ℚ) (v : ℕ) : ℚ :=
  (dt / areaOf g v) * alphaOf P * swsum g v

/-- Modelled from the spec (§4.2): the convergence tolerance — a relative
tolerance on b with an absolute floor. -/
def tolOf (P : SolverParams) (b : ℚ) : ℚ :=
  max (P.relTol * |b|) P.absTol

/-- Modelled from the spec (§4.2): the Newton residual
f(h) = h + c·h^p − b of the scalar backward-Euler equation. -/
def resid (pl : PowLaw) (c b h : ℚ) : ℚ :=
  h + c * pl.pw h - b

/-- Modelled from the spec (§4.2): the Newton iteration.  At each round the
convergence criterion |f(h)| ≤ tol is tested first; otherwise one
Newton-Raphson update h ← h − f(h)/f′(h) with f′(h) = 1 + c·p·h^(p−1) is
taken.  Exhausting the budget returns the last iterate with a false
convergence flag. -/
def newtonLoop (pl : PowLaw) (c b tol : ℚ) : ℕ → ℚ → ℚ × Bool
  | 0, h => (h, false)
  | fuel + 1, h =>
    if |resid pl c b h| ≤ tol then (h, true)
    else newtonLoop pl c b tol fuel (h - resid pl c b h / (1 + c * pl.dpw h))

/-- Modelled from the spec (§4.2): the per-node solve.  The convergence
criterion is evaluated at the raw initial guess h_old first (so a node whose
state already satisfies the equation — in particular the b = 0, h_old = 0
zero-input state of §8 — is returned exactly); the small positive guard is
substituted for a zero initial guess before the first Newton update, to avoid
a degenerate derivative. -/
def newtonSolve (pl : PowLaw) (P : SolverParams) (c b hOld : ℚ) : ℚ × Bool :=
  let tol := tolOf P b
  if |resid pl c b hOld| ≤ tol then (hOld, true)
  else newtonLoop pl c b tol P.maxIter (if hOld = 0 then P.guard else hOld)

/-- Modelled from the spec (§4.2, §4.3): processing of one node in the
downstream sweep: read h_old, gather the inflow from the already-solved
upstream nodes, form b = h_old + dt·r + (dt/A)·inflow, solve the scalar
equation, floor the result at zero, publish the depth and the two discharge
fields, and record a non-fatal NonConvergence warning when the iteration
budget was exhausted. -/
def solveOne (g : RoutingGraph) (pl : PowLaw) (P : SolverParams) (dt : ℚ)
    (rms : List ℚ) (st : StepResult) (v : ℕ) : StepResult :=
  let hOld := st.depth.getD v 0
  let qin := inflowOf g st.outflow v
  let b := hOld + dt * rms.getD v 0 + (dt / areaOf g v) * qin
  let s := newtonSolve pl P (cOf g P dt v) b hOld
  let hNew := max s.1 0
  { depth := st.depth.set v hNew
    outflow := st.outflow.set v (alphaOf P * pl.pw hNew * swsum g v)
    inflow := st.inflow.set v qin
    warnings := if s.2 then st.warnings else st.warnings ++ [v] }

/-- The state at the start of a step: supplied depths, zero discharge fields,
no warnings. -/
def initState (g : RoutingGraph) (d0 : List ℚ) : StepResult :=
  { depth := d0
    outflow := List.replicate g.numNodes 0
    inflow := List.replicate g.numNodes 0
    warnings := [] }

/-- Modelled from the spec (§4.2): one implicit step — a single downstream
sweep over the supplied processing order. -/
def sweep (g : RoutingGraph) (pl : PowLaw) (P : SolverParams) (dt : ℚ)
    (rms : List ℚ) (ord : List ℕ) (d0 : List ℚ) : StepResult :=
  ord.foldl (solveOne g pl P dt rms) (initState g d0)

/-- Modelled from the spec (§4.2, §4.4, §7): one step of the core given an
already-built processing order.  A negative supplied runoff rate (in mm/hr) is
rejected immediately with the fatal NegativeRunoff error; otherwise the rates
are converted to m/s and the sweep runs to completion. -/
def runOneStep (g : RoutingGraph) (ord : List ℕ) (pl : PowLaw)
    (P : SolverParams) (runoffMmhr : List ℚ) (dt : ℚ) (d0 : List ℚ) :
    Except HydroError StepResult :=
  if runoffMmhr.any (fun x => decide (x < 0)) then
    Except.error HydroError.negativeRunoff
  else
    Except.ok (sweep g pl P dt (runoffMmhr.map mmhrToMs) ord d0)

/-- Modelled from the spec (§4.1, §4.4): advance by one step — build (or
validate) the routing order first, failing with InvalidTopology before any
numeric work when a cycle is detected, then run the step. -/
def advance (g : RoutingGraph) (pl : PowLaw) (P : SolverParams)
    (runoffMmhr : List ℚ) (dt : ℚ) (d0 : List ℚ) :
    Except HydroError StepResult :=
  match topoSort g with
  | none => Except.error HydroError.invalidTopology
  | some ord => runOneStep g ord pl P runoffMmhr dt d0

/-- The b constant of the per-node equation expressed against a given final
outflow field: b = h_old + dt·r(t) + (dt/A)·inflow, with the supplied runoff
rate in mm/hr converted by the engine's fixed factor. -/
def bOf (g : RoutingGraph) (dt : ℚ) (runoffMmhr : List ℚ) (d0 : List ℚ)
    (outflow : List ℚ) (v : ℕ) : ℚ :=
  d0.getD v 0 + dt * mmhrToMs (runoffMmhr.getD v 0) +
    (dt / areaOf g v) * inflowOf g outflow v

/-- Modelled from the spec (§4.4): a multi-step simulation — fold the step
over a schedule of per-step runoff-rate arrays (mm/hr), threading the depth
field, and collect each step's result. -/
def simulate (g : RoutingGraph) (pl : PowLaw) (P : SolverParams) (dt : ℚ) :
    List (List ℚ) → List ℚ → Except HydroError (List StepResult)
  | [], _ => Except.ok []
  | r :: rs, d0 =>
    match advance g pl P r dt d0 with
    | Except.error e => Except.error e
    | Except.ok res =>
      match simulate g pl P dt rs res.depth with
      | Except.error e => Except.error e
      | Except.ok ress => Except.ok (res :: ress)

/-! ## Driver loop (embedded from src/KinwaveImplicitOverlandFlow_driver.ipynb) -/

/-- Embedded from the driver notebook: starting_precip_mmhr = 87 mm/hour. -/
def starting_precip_mmhr : ℚ := 87

/-- Embedded from the driver notebook: storm_duration_sec = 1.5 h · 3600 s/h. -/
def storm_duration_sec : ℚ := (3 / 2) * 3600

/-- Embedded from the driver notebook: model_run_time_sec = 4 h · 3600 s/h. -/
def model_run_time_sec : ℚ := 4 * 3600

/-- Embedded from the driver notebook: dt = 500 s. -/
def driver_dt : ℚ := 500

/-- Embedded from the driver notebook hydrograph loop: the runoff rate the
driver assigns to kw.runoff_rate in the iteration whose elapsed time is the
argument — 87 mm/hr while within the storm duration, 1e-20 mm/hr afterwards. -/
def driverRunoffAt (elapsed : ℚ) : ℚ :=
  if elapsed < storm_duration_sec then starting_precip_mmhr else 1 / 10 ^ 20

/-- Embedded from the driver notebook hydrograph loop: the list of runoff
rates in effect at the successive run_one_step calls, one entry per loop
iteration (fuel-bounded while loop; elapsed time advances by dt = 500 s). -/
def driverCallRates : ℕ → ℚ → List ℚ
  | 0, _ => []
  | fuel + 1, elapsed =>
    if elapsed < model_run_time_sec then
      driverRunoffAt elapsed :: driverCallRates fuel (elapsed + driver_dt)
    else []

/-- Embedded from the driver notebook: the hydrograph loop starts at elapsed
time 1 s; 40 rounds of fuel are more than the 29 iterations performed. -/
def hydrographCallRates : List ℚ :=
  driverCallRates 40 1

/-- The positive-runoff assertion of the external component, as described by
the driver notebook comment. -/
def runoffAssertionPasses (r : ℚ) : Bool :=
  decide (0 < r)

/-! ## Concrete instances used by witnesses and counterexamples -/

/-- A two-node graph: node 0 drains into node 1 through a single unit link. -/
def gTwo : RoutingGraph :=
  { numNodes := 2
    area := [1, 1]
    links := [{ src := 0, dst := 1, sqrtSlope := 1, width := 1, frac := 1 }] }

/-- A three-node chain 0 → 1 → 2; the downstream link carries half of node 1's
outflow (an MFD-style fraction). -/
def gChain : RoutingGraph :=
  { numNodes := 3
    area := [1, 1, 1]
    links := [{ src := 0, dst := 1, sqrtSlope := 1, width := 1, frac := 1 },
              { src := 1, dst := 2, sqrtSlope := 1, width := 1, frac := 1/2 }] }

/-- A two-node graph whose links form a directed cycle. -/
def gCyc : RoutingGraph :=
  { numNodes := 2
    area := [1, 1]
    links := [{ src := 0, dst := 1, sqrtSlope := 1, width := 1, frac := 1 },
              { src := 1, dst := 0, sqrtSlope := 1, width := 1, frac := 1 }] }

/-- Test solver parameters with a tiny iteration budget (two Newton rounds),
used to exhibit and to exercise the non-convergence path with small exact
rationals. -/
def pTest : SolverParams :=
  { roughness := 1, relTol := 0, absTol := 1 / 1000000, maxIter := 2, guard := 1 }

/-- Test solver parameters with a comfortable iteration budget. -/
def pTest6 : SolverParams :=
  { roughness := 1, relTol := 0, absTol := 1 / 1000000, maxIter := 6, guard := 1 }

/-! ## Power-law hypotheses and a concrete instance -/

/-- The properties of the depth power law pw (with derivative dpw) used by the
solver theorems, all satisfied by h ↦ h^p with p ≥ 1 on the nonnegative
half-line: value zero at zero, nonnegative values and derivative, the Euler
inequality pw h ≤ h·dpw h, and convexity in tangent-line form. -/
def PowLawOK (pl : PowLaw) : Prop :=
  pl.pw 0 = 0 ∧
  (∀ x, 0 ≤ x → 0 ≤ pl.pw x) ∧
  (∀ x, 0 ≤ x → 0 ≤ pl.dpw x) ∧
  (∀ x, 0 ≤ x → pl.pw x ≤ x * pl.dpw x) ∧
  (∀ x y, 0 ≤ x → 0 ≤ y → pl.pw x + pl.dpw x * (y - x) ≤ pl.pw y)

/-- The quadratic power law (depth exponent p = 2), used to instantiate
witnesses: pw h = h², dpw h = 2h. -/
def sqLaw : PowLaw :=
  { pw := fun h => h ^ 2
    dpw := fun h => 2 * h }

/-- Concrete step result used by the C2 analysis: two nodes, unit geometry,
zero runoff, initial depth 4 at the upstream node, two Newton rounds. -/
def resC2 : StepResult :=
  ((advance gTwo sqLaw pTest [0, 0] 1 [4, 0]).toOption).getD (initState gTwo [])

/-- Concrete step result on the three-node chain with runoff 3.6e6 mm/hr
(that is, exactly 1 m/s after conversion). -/
def resChain : StepResult :=
  ((advance gChain sqLaw pTest [3600000, 3600000, 3600000] 1 [0, 0, 0]).toOption).getD
    (initState gChain [])

/-- Concrete step result for the storm scenario: 87 mm/hr and dt = 500 s from
a dry initial state. -/
def resW5 : StepResult :=
  ((advance gTwo sqLaw pTest [87, 87] 500 [0, 0]).toOption).getD (initState gTwo [])

/-- Concrete step result for drainage-only decay: no runoff, depth 1 at the
upstream node. -/
def resW7 : StepResult :=
  ((advance gTwo sqLaw pTest [0, 0] 1 [1, 0]).toOption).getD (initState gTwo [])

/-- Concrete step result for the zero-input state: no runoff, dry state. -/
def resW8 : StepResult :=
  ((advance gTwo sqLaw pTest [0, 0] 1 [0, 0]).toOption).getD (initState gTwo [])

lemma sqLaw_ok : PowLawOK sqLaw := by
  refine ⟨by norm_num [sqLaw], ?_, ?_, ?_, ?_⟩
  · intro x hx
    simp only [sqLaw]
    positivity
  · intro x hx
    simp only [sqLaw]
    linarith
  · intro x hx
    simp only [sqLaw]
    nlinarith
  · intro x y hx hy
    simp only [sqLaw]
    nlinarith [sq_nonneg (y - x)]

/-! ## List helper lemmas -/

lemma getD_set_self : ∀ (l : List ℚ) (v : ℕ) (x : ℚ), v < l.length →
    (l.set v x).getD v 0 = x
  | [], v, x, h => absurd h (by simp)
  | _ :: _, 0, _, _ => rfl
  | _ :: l, v + 1, x, h => getD_set_self l v x (Nat.lt_of_succ_lt_succ h)

lemma getD_set_other : ∀ (l : List ℚ) (v w : ℕ) (x : ℚ), v ≠ w →
    (l.set v x).getD w 0 = l.getD w 0
  | [], _, _, _, _ => by simp
  | _ :: _, 0, 0, _, h => absurd rfl h
  | _ :: _, 0, _ + 1, _, _ => rfl
  | _ :: _, _ + 1, 0, _, _ => rfl
  | _ :: l, v + 1, w + 1, x, h =>
    getD_set_other l v w x (fun hh => h (by rw [hh]))

lemma getD_map_mmhr : ∀ (l : List ℚ) (v : ℕ),
    (l.map mmhrToMs).getD v 0 = mmhrToMs (l.getD v 0)
  | [], v => by simp [mmhrToMs]
  | _ :: _, 0 => rfl
  | _ :: l, v + 1 => getD_map_mmhr l v

/-! ## Sweep bookkeeping lemmas -/

lemma solveOne_lengths (g : RoutingGraph) (pl : PowLaw) (P : SolverParams)
    (dt : ℚ) (rms : List ℚ) (st : StepResult) (v : ℕ) :
    (solveOne g pl P dt rms st v).depth.length = st.depth.length ∧
    (solveOne g pl P dt rms st v).outflow.length = st.outflow.length ∧
    (solveOne g pl P dt rms st v).inflow.length = st.inflow.length := by
  simp [solveOne]

lemma foldl_solveOne_lengths (g : RoutingGraph) (pl : PowLaw) (P : SolverParams)
    (dt : ℚ) (rms : List ℚ) :
    ∀ (l : List ℕ) (st : StepResult),
      (l.foldl (solveOne g pl P dt rms) st).depth.length = st.depth.length ∧
      (l.foldl (solveOne g pl P dt rms) st).outflow.length = st.outflow.length ∧
      (l.foldl (solveOne g pl P dt rms) st).inflow.length = st.inflow.length
  | [], st => ⟨rfl, rfl, rfl⟩
  | v :: l, st => by
    have h1 := solveOne_lengths g pl P dt rms st v
    have h2 := foldl_solveOne_lengths g pl P dt rms l (solveOne g pl P dt rms st v)
    exact ⟨h2.1.trans h1.1, h2.2.1.trans h1.2.1, h2.2.2.trans h1.2.2⟩

lemma foldl_solveOne_untouched (g : RoutingGraph) (pl : PowLaw) (P : SolverParams)
    (dt : ℚ) (rms : List ℚ) :
    ∀ (l : List ℕ) (st : StepResult) (v : ℕ), v ∉ l →
      (l.foldl (solveOne g pl P dt rms) st).depth.getD v 0 = st.depth.getD v 0 ∧
      (l.foldl (solveOne g pl P dt rms) st).outflow.getD v 0 = st.outflow.getD v 0 ∧
      (l.foldl (solveOne g pl P dt rms) st).inflow.getD v 0 = st.inflow.getD v 0 ∧
      ((v ∈ (l.foldl (solveOne g pl P dt rms) st).warnings) ↔ v ∈ st.warnings)
  | [], st, v, _ => ⟨rfl, rfl, rfl, Iff.rfl⟩
  | u :: l, st, v, hv => by
    have huv : u ≠ v := fun h => hv (h ▸ List.mem_cons_self u l)
    have hvl : v ∉ l := fun h => hv (List.mem_cons_of_mem u h)
    have ih := foldl_solveOne_untouched g pl P dt rms l (solveOne g pl P dt rms st u) v hvl
    have hd : (solveOne g pl P dt rms st u).depth.getD v 0 = st.depth.getD v 0 := by
      simp only [solveOne]
      exact getD_set_other _ _ _ _ huv
    have ho : (solveOne g pl P dt rms st u).outflow.getD v 0 = st.outflow.getD v 0 := by
      simp only [solveOne]
      exact getD_set_other _ _ _ _ huv
    have hi : (solveOne g pl P dt rms st u).inflow.getD v 0 = st.inflow.getD v 0 := by
      simp only [solveOne]
      exact getD_set_other _ _ _ _ huv
    have hw : (v ∈ (solveOne g pl P dt rms st u).warnings) ↔ v ∈ st.warnings := by
      simp only [solveOne]
      split
      · exact Iff.rfl
      · simp only [List.mem_append, List.mem_singleton]
        constructor
        · rintro (h | h)
          · exact h
          · exact absurd h.symm huv
        · exact Or.inl
    simp only [List.foldl_cons]
    exact ⟨ih.1.trans hd, ih.2.1.trans ho, ih.2.2.1.trans hi, ih.2.2.2.trans hw⟩

lemma solveOne_self (g : RoutingGraph) (pl : PowLaw) (P : SolverParams)
    (dt : ℚ) (rms : List ℚ) (st : StepResult) (v : ℕ)
    (hd : v < st.depth.length) (ho : v < st.outflow.length)
    (hi : v < st.inflow.length) :
    (solveOne g pl P dt rms st v).depth.getD v 0
        = max (newtonSolve pl P (cOf g P dt v)
            (st.depth.getD v 0 + dt * rms.getD v 0 +
              (dt / areaOf g v) * inflowOf g st.outflow v) (st.depth.getD v 0)).1 0 ∧
    (solveOne g pl P dt rms st v).outflow.getD v 0
        = alphaOf P * pl.pw (max (newtonSolve pl P (cOf g P dt v)
            (st.depth.getD v 0 + dt * rms.getD v 0 +
              (dt / areaOf g v) * inflowOf g st.outflow v) (st.depth.getD v 0)).1 0)
            * swsum g v ∧
    (solveOne g pl P dt rms st v).inflow.getD v 0 = inflowOf g st.outflow v := by
  refine ⟨?_, ?_, ?_⟩
  · simp only [solveOne]
    exact getD_set_self _ _ _ hd
  · simp only [solveOne]
    exact getD_set_self _ _ _ ho
  · simp only [solveOne]
    exact getD_set_self _ _ _ hi

lemma solveOne_self_warn (g : RoutingGraph) (pl : PowLaw) (P : SolverParams)
    (dt : ℚ) (rms : List ℚ) (st : StepResult) (v : ℕ) (hvw : v ∉ st.warnings) :
    ((v ∈ (solveOne g pl P dt rms st v).warnings) ↔
      (newtonSolve pl P (cOf g P dt v)
          (st.depth.getD v 0 + dt * rms.getD v 0 +
            (dt / areaOf g v) * inflowOf g st.outflow v) (st.depth.getD v 0)).2
        = false) := by
  simp only [solveOne]
  split
  next htrue =>
    constructor
    · intro hm
      exact absurd hm hvw
    · intro hfalse
      rw [hfalse] at htrue
      cases htrue
  next hfalse =>
    constructor
    · intro _
      exact Bool.eq_false_iff.mpr hfalse
    · intro _
      exact List.mem_append.mpr (Or.inr (List.mem_singleton.mpr rfl))

lemma foldl_solveOne_warnings (g : RoutingGraph) (pl : PowLaw) (P : SolverParams)
    (dt : ℚ) (rms : List ℚ) :
    ∀ (l : List ℕ) (st : StepResult) (v : ℕ),
      v ∈ (l.foldl (solveOne g pl P dt rms) st).warnings →
      v ∈ st.warnings ∨ v ∈ l
  | [], st, v, h => Or.inl h
  | u :: l, st, v, h => by
    rcases foldl_solveOne_warnings g pl P dt rms l (solveOne g pl P dt rms st u) v h with h' | h'
    · simp only [solveOne] at h'
      split at h'
      · exact Or.inl h'
      · simp only [List.mem_append, List.mem_singleton] at h'
        rcases h' with h' | h'
        · exact Or.inl h'
        · exact Or.inr (h' ▸ List.mem_cons_self u l)
    · exact Or.inr (List.mem_cons_of_mem u h')

/-- The master characterization of one completed sweep: for every processed
node v, the published inflow equals the sum of final per-link contributions,
the published depth is the zero-floored per-node solve at the stated c and b
constants, the published outflow is the discharge formula at the published
depth, and the NonConvergence warning is recorded exactly when the solve did
not converge.  Requires the processing order to be duplicate-free, in range,
and topological. -/
lemma sweep_processed (g : RoutingGraph) (pl : PowLaw) (P : SolverParams)
    (dt : ℚ) (rms : List ℚ) (d0 : List ℚ) (ord : List ℕ) (hnd : ord.Nodup)
    (htopo : isTopoOrder g ord) (hmem : ∀ v ∈ ord, v < g.numNodes)
    (hlen : d0.length = g.numNodes) :
    ∀ v ∈ ord,
      (sweep g pl P dt rms ord d0).inflow.getD v 0
          = inflowOf g (sweep g pl P dt rms ord d0).outflow v ∧
      (sweep g pl P dt rms ord d0).depth.getD v 0
          = max (newtonSolve pl P (cOf g P dt v)
              (d0.getD v 0 + dt * rms.getD v 0 +
                (dt / areaOf g v) * inflowOf g (sweep g pl P dt rms ord d0).outflow v)
              (d0.getD v 0)).1 0 ∧
      (sweep g pl P dt rms ord d0).outflow.getD v 0
          = alphaOf P * pl.pw ((sweep g pl P dt rms ord d0).depth.getD v 0)
              * swsum g v ∧
      ((v ∈ (sweep g pl P dt rms ord d0).warnings) ↔
        (newtonSolve pl P (cOf g P dt v)
              (d0.getD v 0 + dt * rms.getD v 0 +
                (dt / areaOf g v) * inflowOf g (sweep g pl P dt rms ord d0).outflow v)
              (d0.getD v 0)).2 = false) := by
  intro v hv
  obtain ⟨l₁, l₂, hdec⟩ := List.append_of_mem hv
  subst hdec
  obtain ⟨hnd1, hnd2, hdisj⟩ := List.nodup_append.mp hnd
  have hv1 : v ∉ l₁ := fun hm => hdisj hm (List.mem_cons_self v l₂)
  have hv2 : v ∉ l₂ := (List.nodup_cons.mp hnd2).1
  have hvn : v < g.numNodes := hmem v hv
  set st1 := l₁.foldl (solveOne g pl P dt rms) (initState g d0) with hst1
  set R := l₂.foldl (solveOne g pl P dt rms) (solveOne g pl P dt rms st1 v) with hR
  have hsw : sweep g pl P dt rms (l₁ ++ v :: l₂) d0 = R := by
    simp [sweep, List.foldl_append, hst1, hR]
  -- lengths of the intermediate state
  have hlen1 := foldl_solveOne_lengths g pl P dt rms l₁ (initState g d0)
  rw [← hst1] at hlen1
  have hd1 : st1.depth.length = g.numNodes := by
    rw [hlen1.1]
    simpa [initState] using hlen
  have ho1 : st1.outflow.length = g.numNodes := by
    rw [hlen1.2.1]
    simp [initState]
  have hi1 : st1.inflow.length = g.numNodes := by
    rw [hlen1.2.2]
    simp [initState]
  -- the state before v was processed keeps the initial depth at v
  have huntouched1 := foldl_solveOne_untouched g pl P dt rms l₁ (initState g d0) v hv1
  rw [← hst1] at huntouched1
  have hold1 : st1.depth.getD v 0 = d0.getD v 0 := by
    simpa [initState] using huntouched1.1
  -- after v was processed nothing at v changes any more
  have huntouched2 :=
    foldl_solveOne_untouched g pl P dt rms l₂ (solveOne g pl P dt rms st1 v) v hv2
  rw [← hR] at huntouched2
  -- the inflow gathered at the turn of v equals the final inflow expression
  have hqin : inflowOf g st1.outflow v = inflowOf g R.outflow v := by
    unfold inflowOf
    congr 1
    apply List.map_congr_left
    intro lk hlk
    obtain ⟨hlk1, hlk2⟩ := List.mem_filter.mp hlk
    have hdst : lk.dst = v := by simpa using hlk2
    have htp := htopo lk hlk1 (by rw [hdst]; exact hv)
    have hidxv : (l₁ ++ v :: l₂).indexOf v = l₁.length := by
      rw [List.indexOf_append_of_not_mem hv1, List.indexOf_cons_self]
      omega
    have hsrc_lt : (l₁ ++ v :: l₂).indexOf lk.src < l₁.length := by
      have h2 := htp.2
      rwa [hdst, hidxv] at h2
    have hsrc1 : lk.src ∈ l₁ := by
      by_contra hns
      rw [List.indexOf_append_of_not_mem hns] at hsrc_lt
      omega
    have hsrcnot : lk.src ∉ v :: l₂ := fun hm => hdisj hsrc1 hm
    have hstab := foldl_solveOne_untouched g pl P dt rms (v :: l₂) st1 lk.src hsrcnot
    unfold linkDischarge
    have hstab' : R.outflow.getD lk.src 0 = st1.outflow.getD lk.src 0 := by
      rw [hR]
      simpa [List.foldl_cons] using hstab.2.1
    rw [hstab']
  -- the fields published at the turn of v
  have hselfd := solveOne_self g pl P dt rms st1 v
    (by omega) (by omega) (by omega)
  have hvwarn : v ∉ st1.warnings := by
    intro hm
    rcases foldl_solveOne_warnings g pl P dt rms l₁ (initState g d0) v
      (by rw [← hst1]; exact hm) with h | h
    · simp [initState] at h
    · exact hv1 h
  have hselfw := solveOne_self_warn g pl P dt rms st1 v hvwarn
  rw [hold1, hqin] at hselfd hselfw
  refine ⟨?_, ?_, ?_, ?_⟩
  · rw [hsw, huntouched2.2.2.1, hselfd.2.2]
  · rw [hsw, huntouched2.1, hselfd.1]
  · have hdep : R.depth.getD v 0
        = max (newtonSolve pl P (cOf g P dt v)
            (d0.getD v 0 + dt * rms.getD v 0 +
              (dt / areaOf g v) * inflowOf g R.outflow v)
            (d0.getD v 0)).1 0 := by
      rw [huntouched2.1, hselfd.1]
    rw [hsw, hdep, huntouched2.2.1, hselfd.2.1]
  · rw [hsw, huntouched2.2.2.2, hselfw]

/-! ## Routing Order Builder lemmas -/

lemma mem_feeders (g : RoutingGraph) (v u : ℕ) :
    u ∈ feeders g v ↔ ∃ lk ∈ g.links, lk.src = u ∧ lk.dst = v := by
  unfold feeders
  simp only [List.mem_map, List.mem_filter, beq_iff_eq]
  constructor
  · rintro ⟨lk, ⟨h1, h2⟩, h3⟩
    exact ⟨lk, h1, h3, h2⟩
  · rintro ⟨lk, h1, h2, h3⟩
    exact ⟨lk, ⟨h1, h3⟩, h2⟩

lemma mem_readyNodes (g : RoutingGraph) (done : List ℕ) (v : ℕ) :
    v ∈ readyNodes g done ↔
      v < g.numNodes ∧ v ∉ done ∧ ∀ u ∈ feeders g v, u ∈ done := by
  unfold readyNodes
  simp only [List.mem_filter, List.mem_range, Bool.and_eq_true, Bool.not_eq_true',
    decide_eq_false_iff_not, List.all_eq_true, decide_eq_true_eq]

lemma readyNodes_nodup (g : RoutingGraph) (done : List ℕ) :
    (readyNodes g done).Nodup :=
  (List.nodup_range g.numNodes).filter _

lemma append_ready_invariant (g : RoutingGraph) (done : List ℕ)
    (h1 : done.Nodup) (h2 : ∀ v ∈ done, v < g.numNodes)
    (h3 : isTopoOrder g done) :
    (done ++ readyNodes g done).Nodup ∧
    (∀ v ∈ done ++ readyNodes g done, v < g.numNodes) ∧
    isTopoOrder g (done ++ readyNodes g done) := by
  refine ⟨?_, ?_, ?_⟩
  · refine (List.nodup_append).mpr ⟨h1, readyNodes_nodup g done, ?_⟩
    intro a ha har
    exact ((mem_readyNodes g done a).mp har).2.1 ha
  · intro v hv
    rcases List.mem_append.mp hv with h | h
    · exact h2 v h
    · exact ((mem_readyNodes g done v).mp h).1
  · intro lk hlk hdst
    rcases List.mem_append.mp hdst with hd | hd
    · obtain ⟨hsrc, hidx⟩ := h3 lk hlk hd
      refine ⟨List.mem_append_left _ hsrc, ?_⟩
      rw [List.indexOf_append_of_mem hsrc, List.indexOf_append_of_mem hd]
      exact hidx
    · obtain ⟨_, hdnot, hfeed⟩ := (mem_readyNodes g done lk.dst).mp hd
      have hsrc : lk.src ∈ done := by
        apply hfeed
        exact (mem_feeders g lk.dst lk.src).mpr ⟨lk, hlk, rfl, rfl⟩
      refine ⟨List.mem_append_left _ hsrc, ?_⟩
      rw [List.indexOf_append_of_mem hsrc, List.indexOf_append_of_not_mem hdnot]
      have : done.indexOf lk.src < done.length := List.indexOf_lt_length.mpr hsrc
      omega

lemma topoSortAux_some (g : RoutingGraph) :
    ∀ (fuel : ℕ) (done l : List ℕ),
      done.Nodup → (∀ v ∈ done, v < g.numNodes) → isTopoOrder g done →
      topoSortAux g fuel done = some l →
      l.Nodup ∧ (∀ v ∈ l, v < g.numNodes) ∧ isTopoOrder g l ∧
        g.numNodes ≤ l.length
  | 0, done, l, h1, h2, h3, hres => by
    unfold topoSortAux at hres
    split at hres
    · cases hres
      exact ⟨h1, h2, h3, by omega⟩
    · cases hres
  | fuel + 1, done, l, h1, h2, h3, hres => by
    unfold topoSortAux at hres
    split at hres
    · cases hres
      exact ⟨h1, h2, h3, by omega⟩
    · revert hres
      cases hready : readyNodes g done with
      | nil => intro hres; cases hres
      | cons a r =>
        intro hres
        have hinv := append_ready_invariant g done h1 h2 h3
        rw [hready] at hinv
        exact topoSortAux_some g fuel (done ++ a :: r) l hinv.1 hinv.2.1 hinv.2.2 hres

lemma topoSortAux_none (g : RoutingGraph) :
    ∀ (fuel : ℕ) (done : List ℕ),
      done.Nodup → (∀ v ∈ done, v < g.numNodes) → isTopoOrder g done →
      g.numNodes ≤ fuel + done.length →
      topoSortAux g fuel done = none →
      ∃ d : List ℕ, d.Nodup ∧ (∀ v ∈ d, v < g.numNodes) ∧ isTopoOrder g d ∧
        d.length < g.numNodes ∧ readyNodes g d = []
  | 0, done, h1, h2, h3, hfuel, hres => by
    unfold topoSortAux at hres
    split at hres
    · cases hres
    · omega
  | fuel + 1, done, h1, h2, h3, hfuel, hres => by
    unfold topoSortAux at hres
    split at hres
    · cases hres
    · revert hres
      cases hready : readyNodes g done with
      | nil =>
        intro _
        rename_i hlt
        exact ⟨done, h1, h2, h3, by omega, hready⟩
      | cons a r =>
        intro hres
        have hinv := append_ready_invariant g done h1 h2 h3
        rw [hready] at hinv
        refine topoSortAux_none g fuel (done ++ a :: r) hinv.1 hinv.2.1 hinv.2.2 ?_ hres
        have : (done ++ a :: r).length = done.length + (a :: r).length :=
          List.length_append _ _
        simp only [List.length_cons] at this
        omega

lemma topoSort_some_spec (g : RoutingGraph) (l : List ℕ)
    (h : topoSort g = some l) :
    l.Nodup ∧ (∀ v, v ∈ l ↔ v < g.numNodes) ∧ isTopoOrder g l := by
  have hbase := topoSortAux_some g g.numNodes [] l List.nodup_nil
    (by intro v hv; cases hv) (by intro lk _ hd; cases hd) h
  obtain ⟨hnd, hmem, htopo, hle⟩ := hbase
  refine ⟨hnd, ?_, htopo⟩
  have hsub : l.toFinset ⊆ Finset.range g.numNodes := by
    intro v hv
    rw [Finset.mem_range]
    exact hmem v (List.mem_toFinset.mp hv)
  have hcard : (Finset.range g.numNodes).card ≤ l.toFinset.card := by
    rw [Finset.card_range, List.toFinset_card_of_nodup hnd]
    exact hle
  have heq : l.toFinset = Finset.range g.numNodes :=
    Finset.eq_of_subset_of_card_le hsub hcard
  intro v
  constructor
  · exact hmem v
  · intro hv
    have : v ∈ l.toFinset := by
      rw [heq, Finset.mem_range]
      exact hv
    exact List.mem_toFinset.mp this

lemma pickFeeder_spec (g : RoutingGraph) (done : List ℕ) (v : ℕ)
    (h : ∃ u ∈ feeders g v, u ∉ done) :
    pickFeeder g done v ∈ feeders g v ∧ pickFeeder g done v ∉ done := by
  obtain ⟨u, hu, hnd⟩ := h
  have hsome : ((feeders g v).find? (fun u => !(decide (u ∈ done)))).isSome := by
    rw [List.find?_isSome]
    exact ⟨u, hu, by simpa using hnd⟩
  obtain ⟨w, hwsome⟩ := Option.isSome_iff_exists.mp hsome
  have hmem := List.mem_of_find?_eq_some hwsome
  have hp := List.find?_some hwsome
  unfold pickFeeder
  rw [hwsome]
  simp only [Option.getD_some]
  refine ⟨hmem, ?_⟩
  simpa using hp

/-- If the Kahn iteration stalls — nodes remain but none is ready — the graph
contains a directed cycle, obtained by walking unplaced feeders backwards and
applying the pigeonhole principle. -/
lemma stall_cycle (g : RoutingGraph) (hw : WellFormed g) (d : List ℕ)
    (hnd : d.Nodup) (_hmem : ∀ v ∈ d, v < g.numNodes)
    (hlt : d.length < g.numNodes) (hstall : readyNodes g d = []) :
    HasCycle g := by
  classical
  set S : Finset ℕ := (Finset.range g.numNodes).filter (fun v => v ∉ d) with hS
  have hmemS : ∀ v, v ∈ S ↔ (v < g.numNodes ∧ v ∉ d) := by
    intro v
    simp [hS, Finset.mem_filter, Finset.mem_range]
  have hstep : ∀ v ∈ S, pickFeeder g d v ∈ S ∧ isLink g (pickFeeder g d v) v := by
    intro v hv
    obtain ⟨hvn, hvd⟩ := (hmemS v).mp hv
    have hnotready : v ∉ readyNodes g d := by
      rw [hstall]
      exact List.not_mem_nil v
    have hex : ∃ u ∈ feeders g v, u ∉ d := by
      by_contra hno
      push_neg at hno
      exact hnotready ((mem_readyNodes g d v).mpr ⟨hvn, hvd, hno⟩)
    obtain ⟨hpf, hpd⟩ := pickFeeder_spec g d v hex
    obtain ⟨lk, hlk, hsrc, hdst⟩ := (mem_feeders g v _).mp hpf
    have hsrclt := (hw.2.2 lk hlk).1
    have hlt' : pickFeeder g d v < g.numNodes := by omega
    exact ⟨(hmemS _).mpr ⟨hlt', hpd⟩, ⟨lk, hlk, hsrc, hdst⟩⟩
  have hSne : ∃ v0, v0 ∈ S := by
    by_contra hno
    push_neg at hno
    have hsub : Finset.range g.numNodes ⊆ d.toFinset := by
      intro v hv
      rw [Finset.mem_range] at hv
      rw [List.mem_toFinset]
      by_contra hvd
      exact hno v ((hmemS v).mpr ⟨hv, hvd⟩)
    have hc := Finset.card_le_card hsub
    rw [Finset.card_range, List.toFinset_card_of_nodup hnd] at hc
    omega
  obtain ⟨v0, hv0⟩ := hSne
  have hiter : ∀ (k : ℕ) (x : ℕ), x ∈ S →
      (pickFeeder g d)^[k] x ∈ S ∧ pathLen g k ((pickFeeder g d)^[k] x) x := by
    intro k
    induction k with
    | zero =>
      intro x hx
      exact ⟨hx, rfl⟩
    | succ k ih =>
      intro x hx
      obtain ⟨hin, hpath⟩ := ih x hx
      rw [Function.iterate_succ_apply']
      obtain ⟨hin', hlink⟩ := hstep _ hin
      exact ⟨hin', ⟨(pickFeeder g d)^[k] x, hlink, hpath⟩⟩
  have hcard : S.card < (Finset.range (g.numNodes + 1)).card := by
    have h1 : S.card ≤ (Finset.range g.numNodes).card := Finset.card_filter_le _ _
    rw [Finset.card_range] at h1
    rw [Finset.card_range]
    omega
  obtain ⟨i, hi, j, hj, hij, heq⟩ :=
    Finset.exists_ne_map_eq_of_card_lt_of_maps_to hcard
      (fun k _ => (hiter k v0 hv0).1)
  have key : ∀ a b : ℕ, a < b →
      (pickFeeder g d)^[a] v0 = (pickFeeder g d)^[b] v0 → HasCycle g := by
    intro a b hab habeq
    set x := (pickFeeder g d)^[a] v0 with hx
    have hxS : x ∈ S := (hiter a v0 hv0).1
    have hiterx : (pickFeeder g d)^[b - a] x = x := by
      rw [hx, ← Function.iterate_add_apply]
      have hba : b - a + a = b := by omega
      rw [hba]
      exact habeq.symm
    obtain ⟨_, hpath⟩ := hiter (b - a) x hxS
    rw [hiterx] at hpath
    exact ⟨x, b - a, by omega, hpath⟩
  rcases Nat.lt_or_ge i j with h | h
  · exact key i j h heq
  · have hji : j < i := by omega
    exact key j i hji heq.symm

lemma topoSort_none_cycle (g : RoutingGraph) (hw : WellFormed g)
    (h : topoSort g = none) : HasCycle g := by
  obtain ⟨d, h1, h2, _, h4, h5⟩ := topoSortAux_none g g.numNodes []
    List.nodup_nil (by intro v hv; cases hv) (by intro lk _ hd; cases hd)
    (by omega) h
  exact stall_cycle g hw d h1 h2 h4 h5

/-! ## Newton iteration lemmas -/

lemma newtonLoop_converged (pl : PowLaw) (c b tol : ℚ) :
    ∀ (fuel : ℕ) (h : ℚ), (newtonLoop pl c b tol fuel h).2 = true →
      |resid pl c b (newtonLoop pl c b tol fuel h).1| ≤ tol
  | 0, h => by
    intro hh
    simp [newtonLoop] at hh
  | fuel + 1, h => by
    simp only [newtonLoop]
    by_cases hcond : |resid pl c b h| ≤ tol
    · rw [if_pos hcond]
      intro _
      simpa using hcond
    · rw [if_neg hcond]
      exact newtonLoop_converged pl c b tol fuel _

lemma newtonLoop_nonneg (pl : PowLaw) (hpl : PowLawOK pl) (c b tol : ℚ)
    (hc : 0 ≤ c) (hb : 0 ≤ b) :
    ∀ (fuel : ℕ) (h : ℚ), 0 ≤ h → 0 ≤ (newtonLoop pl c b tol fuel h).1
  | 0, h => by
    intro hh
    simpa [newtonLoop] using hh
  | fuel + 1, h => by
    intro hh
    simp only [newtonLoop]
    by_cases hcond : |resid pl c b h| ≤ tol
    · rw [if_pos hcond]
      exact hh
    · rw [if_neg hcond]
      apply newtonLoop_nonneg pl hpl c b tol hc hb fuel
      obtain ⟨hpw0, hpwpos, hdpos, heuler, hconv⟩ := hpl
      have hdh := hdpos h hh
      have hfp : (1 : ℚ) ≤ 1 + c * pl.dpw h := by nlinarith
      rcases le_or_lt 0 (resid pl c b h) with hr | hr
      · have heu := heuler h hh
        have hresle : resid pl c b h ≤ h * (1 + c * pl.dpw h) := by
          simp only [resid]
          nlinarith
        have hdiv : resid pl c b h / (1 + c * pl.dpw h) ≤ h := by
          rw [div_le_iff₀ (by linarith)]
          linarith
        linarith
      · have hdiv : resid pl c b h / (1 + c * pl.dpw h) < 0 :=
          div_neg_of_neg_of_pos hr (by linarith)
        linarith

lemma newtonLoop_decreasing (pl : PowLaw) (hpl : PowLawOK pl) (c b tol : ℚ)
    (hc : 0 ≤ c) (hb : 0 ≤ b) (htol : 0 ≤ tol) :
    ∀ (fuel : ℕ) (h : ℚ), 0 ≤ h → 0 ≤ resid pl c b h →
      (newtonLoop pl c b tol fuel h).1 ≤ h
  | 0, h => by
    intro _ _
    simp [newtonLoop]
  | fuel + 1, h => by
    intro hh hres
    simp only [newtonLoop]
    by_cases hcond : |resid pl c b h| ≤ tol
    · rw [if_pos hcond]
    · rw [if_neg hcond]
      obtain ⟨hpw0, hpwpos, hdpos, heuler, hconv⟩ := hpl
      have hdh := hdpos h hh
      have hfp : (1 : ℚ) ≤ 1 + c * pl.dpw h := by nlinarith
      have hrpos : 0 < resid pl c b h := by
        rcases lt_or_eq_of_le hres with hlt | heq0
        · rcases le_or_lt (resid pl c b h) tol with hle | hgt
          · exact absurd (by rwa [abs_of_pos hlt]) hcond
          · linarith
        · exfalso
          apply hcond
          rw [← heq0, abs_zero]
          exact htol
      have hstep_le : h - resid pl c b h / (1 + c * pl.dpw h) ≤ h := by
        have : 0 < resid pl c b h / (1 + c * pl.dpw h) :=
          div_pos hrpos (by linarith)
        linarith
      have heu := heuler h hh
      have hstep_nonneg : 0 ≤ h - resid pl c b h / (1 + c * pl.dpw h) := by
        have hresle : resid pl c b h ≤ h * (1 + c * pl.dpw h) := by
          simp only [resid]
          nlinarith [mul_le_mul_of_nonneg_left heu hc]
        have hdiv : resid pl c b h / (1 + c * pl.dpw h) ≤ h := by
          rw [div_le_iff₀ (by linarith)]
          linarith
        linarith
      have hprod : (1 + c * pl.dpw h) *
          ((h - resid pl c b h / (1 + c * pl.dpw h)) - h) = -(resid pl c b h) := by
        have hf0 : (1 + c * pl.dpw h) ≠ 0 := by linarith
        field_simp
        ring
      have hres2 : 0 ≤ resid pl c b (h - resid pl c b h / (1 + c * pl.dpw h)) := by
        have hcv := hconv h (h - resid pl c b h / (1 + c * pl.dpw h)) hh hstep_nonneg
        have hkey : c * (pl.pw h + pl.dpw h *
            ((h - resid pl c b h / (1 + c * pl.dpw h)) - h))
            ≤ c * pl.pw (h - resid pl c b h / (1 + c * pl.dpw h)) :=
          mul_le_mul_of_nonneg_left hcv hc
        simp only [resid] at hkey hprod ⊢
        nlinarith
      calc (newtonLoop pl c b tol fuel
            (h - resid pl c b h / (1 + c * pl.dpw h))).1
          ≤ h - resid pl c b h / (1 + c * pl.dpw h) :=
            newtonLoop_decreasing pl ⟨hpw0, hpwpos, hdpos, heuler, hconv⟩ c b tol
              hc hb htol fuel _ hstep_nonneg hres2
        _ ≤ h := hstep_le

lemma newtonSolve_converged (pl : PowLaw) (P : SolverParams) (c b hOld : ℚ)
    (h2 : (newtonSolve pl P c b hOld).2 = true) :
    |resid pl c b (newtonSolve pl P c b hOld).1| ≤ tolOf P b := by
  unfold newtonSolve at h2 ⊢
  by_cases hcond : |resid pl c b hOld| ≤ tolOf P b
  · rw [if_pos hcond]
    simpa using hcond
  · rw [if_neg hcond] at h2 ⊢
    exact newtonLoop_converged pl c b (tolOf P b) P.maxIter _ h2

lemma newtonSolve_nonneg (pl : PowLaw) (hpl : PowLawOK pl) (P : SolverParams)
    (c b hOld : ℚ) (hc : 0 ≤ c) (hb : 0 ≤ b) (hOld0 : 0 ≤ hOld)
    (hg : 0 ≤ P.guard) :
    0 ≤ (newtonSolve pl P c b hOld).1 := by
  unfold newtonSolve
  by_cases hcond : |resid pl c b hOld| ≤ tolOf P b
  · rw [if_pos hcond]
    exact hOld0
  · rw [if_neg hcond]
    apply newtonLoop_nonneg pl hpl c b (tolOf P b) hc hb P.maxIter
    by_cases hz : hOld = 0
    · rw [if_pos hz]
      exact hg
    · rw [if_neg hz]
      exact hOld0

lemma tolOf_nonneg (P : SolverParams) (b : ℚ) (hrel : 0 ≤ P.relTol) :
    0 ≤ tolOf P b := by
  unfold tolOf
  have : 0 ≤ P.relTol * |b| := mul_nonneg hrel (abs_nonneg b)
  exact le_trans this (le_max_left _ _)

/-- With no runoff and no inflow (b = h_old), the per-node solve never
exceeds the previous depth: drainage-only decay. -/
lemma newtonSolve_drain (pl : PowLaw) (hpl : PowLawOK pl) (P : SolverParams)
    (c hOld : ℚ) (hc : 0 ≤ c) (h0 : 0 ≤ hOld) (hrel : 0 ≤ P.relTol) :
    (newtonSolve pl P c hOld hOld).1 ≤ hOld := by
  obtain ⟨hpw0, hpwpos, hdpos, heuler, hconv⟩ := hpl
  unfold newtonSolve
  by_cases hcond : |resid pl c hOld hOld| ≤ tolOf P hOld
  · rw [if_pos hcond]
  · rw [if_neg hcond]
    have htol := tolOf_nonneg P hOld hrel
    have hz : hOld ≠ 0 := by
      intro hz
      apply hcond
      rw [hz]
      simp only [resid, hpw0]
      simpa using tolOf_nonneg P 0 hrel
    rw [if_neg hz]
    apply newtonLoop_decreasing pl ⟨hpw0, hpwpos, hdpos, heuler, hconv⟩
      c hOld (tolOf P hOld) hc h0 htol P.maxIter hOld h0
    simp only [resid]
    nlinarith [mul_nonneg hc (hpwpos hOld h0)]

/-- The zero-input state solves exactly: b = 0 and h_old = 0 return depth 0
with the converged flag, before any Newton update. -/
lemma newtonSolve_zero (pl : PowLaw) (hpw0 : pl.pw 0 = 0) (P : SolverParams)
    (c : ℚ) : newtonSolve pl P c 0 0 = (0, true) := by
  unfold newtonSolve
  rw [if_pos]
  simp only [resid, hpw0]
  unfold tolOf
  simp

/-! ## Nonnegativity glue lemmas -/

lemma getD_nonneg {l : List ℚ} (h : ∀ x ∈ l, 0 ≤ x) (v : ℕ) : 0 ≤ l.getD v 0 := by
  rcases Nat.lt_or_ge v l.length with hlt | hge
  · rw [List.getD_eq_getElem _ _ hlt]
    exact h _ (List.getElem_mem hlt)
  · rw [List.getD_eq_default _ _ hge]

lemma alphaOf_nonneg (P : SolverParams) (h : 0 ≤ P.roughness) : 0 ≤ alphaOf P :=
  one_div_nonneg.mpr h

lemma areaOf_nonneg (g : RoutingGraph) (hw : WellFormed g) (v : ℕ) :
    0 ≤ areaOf g v :=
  getD_nonneg (fun x hx => le_of_lt (hw.2.1 x hx)) v

lemma swsum_nonneg (g : RoutingGraph) (hw : WellFormed g) (v : ℕ) :
    0 ≤ swsum g v := by
  unfold swsum
  apply List.sum_nonneg
  intro x hx
  obtain ⟨lk, hlk, rfl⟩ := List.mem_map.mp hx
  have hlk' := List.mem_filter.mp hlk
  have hv := hw.2.2 lk hlk'.1
  exact mul_nonneg hv.2.2.1 hv.2.2.2.1

lemma inflowOf_nonneg (g : RoutingGraph) (hw : WellFormed g) (outflow : List ℚ)
    (hout : ∀ u, 0 ≤ outflow.getD u 0) (v : ℕ) : 0 ≤ inflowOf g outflow v := by
  unfold inflowOf
  apply List.sum_nonneg
  intro x hx
  obtain ⟨lk, hlk, rfl⟩ := List.mem_map.mp hx
  have hlk' := List.mem_filter.mp hlk
  have hfr := (hw.2.2 lk hlk'.1).2.2.2.2
  exact mul_nonneg (hout lk.src) hfr

lemma cOf_nonneg (g : RoutingGraph) (P : SolverParams) (dt : ℚ) (v : ℕ)
    (hw : WellFormed g) (hdt : 0 ≤ dt) (hrough : 0 ≤ P.roughness) :
    0 ≤ cOf g P dt v :=
  mul_nonneg (mul_nonneg (div_nonneg hdt (areaOf_nonneg g hw v))
    (alphaOf_nonneg P hrough)) (swsum_nonneg g hw v)

lemma mmhrToMs_nonneg (x : ℚ) (h : 0 ≤ x) : 0 ≤ mmhrToMs x := by
  unfold mmhrToMs
  positivity

lemma bOf_nonneg (g : RoutingGraph) (dt : ℚ) (r d0 outflow : List ℚ) (v : ℕ)
    (hw : WellFormed g) (hd0 : ∀ x ∈ d0, 0 ≤ x) (hr : ∀ x ∈ r, 0 ≤ x)
    (hdt : 0 ≤ dt) (hout : ∀ u, 0 ≤ outflow.getD u 0) :
    0 ≤ bOf g dt r d0 outflow v := by
  unfold bOf
  have h1 := getD_nonneg hd0 v
  have h2 := mmhrToMs_nonneg _ (getD_nonneg hr v)
  have h4 := inflowOf_nonneg g hw outflow hout v
  have h5 : 0 ≤ dt / areaOf g v := div_nonneg hdt (areaOf_nonneg g hw v)
  have h6 := mul_nonneg hdt h2
  have h7 := mul_nonneg h5 h4
  linarith

/-! ## Step-level unfolding lemmas -/

lemma any_neg_iff (r : List ℚ) :
    (r.any (fun x => decide (x < 0)) = true) ↔ ∃ x ∈ r, x < 0 := by
  rw [List.any_eq_true]
  simp

lemma runOneStep_neg (g : RoutingGraph) (ord : List ℕ) (pl : PowLaw)
    (P : SolverParams) (r : List ℚ) (dt : ℚ) (d0 : List ℚ)
    (h : ∃ x ∈ r, x < 0) :
    runOneStep g ord pl P r dt d0 = Except.error HydroError.negativeRunoff := by
  unfold runOneStep
  rw [if_pos ((any_neg_iff r).mpr h)]

lemma runOneStep_ok (g : RoutingGraph) (ord : List ℕ) (pl : PowLaw)
    (P : SolverParams) (r : List ℚ) (dt : ℚ) (d0 : List ℚ)
    (h : ∀ x ∈ r, 0 ≤ x) :
    runOneStep g ord pl P r dt d0
      = Except.ok (sweep g pl P dt (r.map mmhrToMs) ord d0) := by
  unfold runOneStep
  rw [if_neg]
  intro hc
  obtain ⟨x, hx, hxneg⟩ := (any_neg_iff r).mp hc
  exact absurd (h x hx) (not_le.mpr hxneg)

lemma advance_eq_step (g : RoutingGraph) (pl : PowLaw) (P : SolverParams)
    (r : List ℚ) (dt : ℚ) (d0 : List ℚ) (ord : List ℕ)
    (hts : topoSort g = some ord) :
    advance g pl P r dt d0 = runOneStep g ord pl P r dt d0 := by
  unfold advance
  rw [hts]

lemma advance_no_order (g : RoutingGraph) (pl : PowLaw) (P : SolverParams)
    (r : List ℚ) (dt : ℚ) (d0 : List ℚ) (hts : topoSort g = none) :
    advance g pl P r dt d0 = Except.error HydroError.invalidTopology := by
  unfold advance
  rw [hts]

lemma advance_ok_elim (g : RoutingGraph) (pl : PowLaw) (P : SolverParams)
    (r : List ℚ) (dt : ℚ) (d0 : List ℚ) (res : StepResult)
    (h : advance g pl P r dt d0 = Except.ok res) :
    ∃ ord, topoSort g = some ord ∧ (∀ x ∈ r, 0 ≤ x) ∧
      res = sweep g pl P dt (r.map mmhrToMs) ord d0 := by
  cases hts : topoSort g with
  | none =>
    rw [advance_no_order g pl P r dt d0 hts] at h
    cases h
  | some ord =>
    rw [advance_eq_step g pl P r dt d0 ord hts] at h
    by_cases hneg : r.any (fun x => decide (x < 0))
    · rw [runOneStep_neg g ord pl P r dt d0 ((any_neg_iff r).mp hneg)] at h
      cases h
    · have hpos : ∀ x ∈ r, 0 ≤ x := by
        intro x hx
        by_contra hneg2
        exact hneg ((any_neg_iff r).mpr ⟨x, hx, not_le.mp hneg2⟩)
      rw [runOneStep_ok g ord pl P r dt d0 hpos] at h
      exact ⟨ord, rfl, hpos, (Except.ok.inj h).symm⟩

lemma advance_lengths (g : RoutingGraph) (pl : PowLaw) (P : SolverParams)
    (r : List ℚ) (dt : ℚ) (d0 : List ℚ) (res : StepResult)
    (h : advance g pl P r dt d0 = Except.ok res) :
    res.depth.length = d0.length ∧ res.outflow.length = g.numNodes ∧
      res.inflow.length = g.numNodes := by
  obtain ⟨ord, _, _, hres⟩ := advance_ok_elim g pl P r dt d0 res h
  have hl := foldl_solveOne_lengths g pl P dt (r.map mmhrToMs) ord (initState g d0)
  rw [hres]
  unfold sweep
  refine ⟨hl.1.trans ?_, hl.2.1.trans ?_, hl.2.2.trans ?_⟩ <;> simp [initState]

/-- The full-step characterization at the level of the advance operation: for
each node of a successfully completed step, the published fields satisfy the
per-node equations of spec §4.2 and §4.3 with the b constant expressed in
terms of the final outflow field and the converted runoff rate. -/
lemma advance_processed (g : RoutingGraph) (pl : PowLaw) (P : SolverParams)
    (r : List ℚ) (dt : ℚ) (d0 : List ℚ) (res : StepResult)
    (h : advance g pl P r dt d0 = Except.ok res)
    (hlen : d0.length = g.numNodes) :
    ∀ v, v < g.numNodes →
      res.inflow.getD v 0 = inflowOf g res.outflow v ∧
      res.depth.getD v 0 = max (newtonSolve pl P (cOf g P dt v)
          (bOf g dt r d0 res.outflow v) (d0.getD v 0)).1 0 ∧
      res.outflow.getD v 0
          = alphaOf P * pl.pw (res.depth.getD v 0) * swsum g v ∧
      ((v ∈ res.warnings) ↔ (newtonSolve pl P (cOf g P dt v)
          (bOf g dt r d0 res.outflow v) (d0.getD v 0)).2 = false) := by
  obtain ⟨ord, hts, hrn, hres⟩ := advance_ok_elim g pl P r dt d0 res h
  obtain ⟨hnd, hcomp, htopo⟩ := topoSort_some_spec g ord hts
  intro v hv
  have hvord : v ∈ ord := (hcomp v).mpr hv
  have hmem : ∀ u ∈ ord, u < g.numNodes := fun u hu => (hcomp u).mp hu
  have hchar := sweep_processed g pl P dt (r.map mmhrToMs) d0 ord hnd htopo
    hmem hlen v hvord
  rw [← hres, getD_map_mmhr] at hchar
  unfold bOf
  exact hchar

lemma advance_depth_nonneg_at (g : RoutingGraph) (pl : PowLaw) (P : SolverParams)
    (r : List ℚ) (dt : ℚ) (d0 : List ℚ) (res : StepResult)
    (h : advance g pl P r dt d0 = Except.ok res)
    (hlen : d0.length = g.numNodes) :
    ∀ v, v < g.numNodes → 0 ≤ res.depth.getD v 0 := by
  intro v hv
  rw [(advance_processed g pl P r dt d0 res h hlen v hv).2.1]
  exact le_max_right _ _

lemma advance_outflow_nonneg (g : RoutingGraph) (pl : PowLaw) (P : SolverParams)
    (r : List ℚ) (dt : ℚ) (d0 : List ℚ) (res : StepResult)
    (h : advance g pl P r dt d0 = Except.ok res)
    (hw : WellFormed g) (hlen : d0.length = g.numNodes)
    (hrough : 0 ≤ P.roughness) (hpw : ∀ x, 0 ≤ x → 0 ≤ pl.pw x) :
    ∀ u, 0 ≤ res.outflow.getD u 0 := by
  intro u
  rcases Nat.lt_or_ge u g.numNodes with hu | hu
  · rw [(advance_processed g pl P r dt d0 res h hlen u hu).2.2.1]
    exact mul_nonneg (mul_nonneg (alphaOf_nonneg P hrough)
      (hpw _ (advance_depth_nonneg_at g pl P r dt d0 res h hlen u hu)))
      (swsum_nonneg g hw u)
  · have hlo := (advance_lengths g pl P r dt d0 res h).2.1
    rw [List.getD_eq_default]
    omega

lemma except_toOption_ok {e : Except HydroError StepResult} {a : StepResult}
    (h : e.toOption = some a) : e = Except.ok a := by
  cases e with
  | error x => simp [Except.toOption] at h
  | ok x =>
    simp only [Except.toOption, Option.some.injEq] at h
    rw [h]

lemma advance_depth_mem_nonneg (g : RoutingGraph) (pl : PowLaw)
    (P : SolverParams) (r : List ℚ) (dt : ℚ) (d0 : List ℚ) (res : StepResult)
    (hok : advance g pl P r dt d0 = Except.ok res)
    (hlen : d0.length = g.numNodes) :
    ∀ x ∈ res.depth, 0 ≤ x := by
  intro x hx
  obtain ⟨i, hi, hxe⟩ := List.mem_iff_getElem.mp hx
  have hlen2 := (advance_lengths g pl P r dt d0 res hok).1
  have hin : i < g.numNodes := by omega
  have hnn := advance_depth_nonneg_at g pl P r dt d0 res hok hlen i hin
  rw [List.getD_eq_getElem _ _ hi, hxe] at hnn
  exact hnn

lemma simulate_cons_elim (g : RoutingGraph) (pl : PowLaw) (P : SolverParams)
    (dt : ℚ) (r : List ℚ) (rs : List (List ℚ)) (d0 : List ℚ)
    (out : List StepResult)
    (h : simulate g pl P dt (r :: rs) d0 = Except.ok out) :
    ∃ res ress, advance g pl P r dt d0 = Except.ok res ∧
      simulate g pl P dt rs res.depth = Except.ok ress ∧ out = res :: ress := by
  unfold simulate at h
  cases hadv : advance g pl P r dt d0 with
  | error e =>
    rw [hadv] at h
    cases h
  | ok res =>
    rw [hadv] at h
    have h2 : (match simulate g pl P dt rs res.depth with
        | Except.error e => (Except.error e : Except HydroError (List StepResult))
        | Except.ok ress => Except.ok (res :: ress)) = Except.ok out := h
    cases hsim : simulate g pl P dt rs res.depth with
    | error e =>
      rw [hsim] at h2
      cases h2
    | ok ress =>
      rw [hsim] at h2
      exact ⟨res, ress, rfl, hsim, (Except.ok.inj h2).symm⟩

/-! ## Claim theorems -/

/-- C1: for every non-negative per-node runoff-rate array — zeros included —
one step of the core completes with a result and no error and no near-zero
substitute is required, while an array containing any negative rate is
rejected immediately with the fatal NegativeRunoff error (and that is the only
way the step produces that error). -/
theorem runoff_validation (g : RoutingGraph) (ord : List ℕ) (pl : PowLaw)
    (P : SolverParams) (r : List ℚ) (dt : ℚ) (d0 : List ℚ) :
    ((∀ x ∈ r, 0 ≤ x) → ∃ res, runOneStep g ord pl P r dt d0 = Except.ok res) ∧
    (runOneStep g ord pl P r dt d0 = Except.error HydroError.negativeRunoff
      ↔ ∃ x ∈ r, x < 0) := by
  constructor
  · intro h
    exact ⟨_, runOneStep_ok g ord pl P r dt d0 h⟩
  · constructor
    · intro h
      by_contra hneg
      push_neg at hneg
      rw [runOneStep_ok g ord pl P r dt d0 hneg] at h
      cases h
    · exact runOneStep_neg g ord pl P r dt d0

/-- C2 (amended): for every node of a completed implicit step whose Newton
iteration reported convergence, the published depth h is nonnegative and
satisfies the scalar backward-Euler equation h + c·h^p = b up to the stated
tolerance, with c = (dt/A)·α·√S·width_total and b = h_old + dt·r(t) +
(dt/A)·inflow_new computed from the already-solved upstream outflows.  (A node
that exhausts its iteration budget is clamped instead and need not satisfy
the tolerance; see the counterexample and C6.) -/
theorem perNode_equation_converged (g : RoutingGraph) (pl : PowLaw)
    (P : SolverParams) (r : List ℚ) (dt : ℚ) (d0 : List ℚ) (res : StepResult)
    (v : ℕ) (hpl : PowLawOK pl) (hw : WellFormed g)
    (hlen : d0.length = g.numNodes) (hv : v < g.numNodes)
    (hdt : 0 ≤ dt) (hrough : 0 ≤ P.roughness) (hguard : 0 ≤ P.guard)
    (hd0 : ∀ x ∈ d0, 0 ≤ x)
    (hok : advance g pl P r dt d0 = Except.ok res)
    (hconv : (newtonSolve pl P (cOf g P dt v) (bOf g dt r d0 res.outflow v)
        (d0.getD v 0)).2 = true) :
    0 ≤ res.depth.getD v 0 ∧
    |resid pl (cOf g P dt v) (bOf g dt r d0 res.outflow v) (res.depth.getD v 0)|
      ≤ tolOf P (bOf g dt r d0 res.outflow v) := by
  have hchar := advance_processed g pl P r dt d0 res hok hlen v hv
  obtain ⟨ord, hts, hrn, hres⟩ := advance_ok_elim g pl P r dt d0 res hok
  have hout := advance_outflow_nonneg g pl P r dt d0 res hok hw hlen hrough hpl.2.1
  have hb := bOf_nonneg g dt r d0 res.outflow v hw hd0 hrn hdt hout
  have hc := cOf_nonneg g P dt v hw hdt hrough
  have hnn := newtonSolve_nonneg pl hpl P (cOf g P dt v)
    (bOf g dt r d0 res.outflow v) (d0.getD v 0) hc hb (getD_nonneg hd0 v) hguard
  have hmax : max (newtonSolve pl P (cOf g P dt v)
      (bOf g dt r d0 res.outflow v) (d0.getD v 0)).1 0
      = (newtonSolve pl P (cOf g P dt v)
          (bOf g dt r d0 res.outflow v) (d0.getD v 0)).1 :=
    max_eq_left hnn
  rw [hchar.2.1, hmax]
  exact ⟨hnn, newtonSolve_converged pl P _ _ _ hconv⟩

/-- C3: the Routing Order Builder either returns a duplicate-free sequence of
exactly the graph's node ids in which every node appears after all nodes
feeding it, or — when the graph contains a directed cycle — fails with
InvalidTopology; and when the order build fails, a step on that graph reports
InvalidTopology before any numeric work, for every input. -/
theorem routing_order_builder_spec (g : RoutingGraph) (hw : WellFormed g) :
    ((∃ l, topoSort g = some l ∧ isTopoOrder g l ∧ l.Nodup ∧
        (∀ v, v ∈ l ↔ v < g.numNodes)) ∨
      (topoSort g = none ∧ HasCycle g)) ∧
    (topoSort g = none → ∀ pl P r dt d0,
      advance g pl P r dt d0 = Except.error HydroError.invalidTopology) := by
  constructor
  · cases hts : topoSort g with
    | none => exact Or.inr ⟨rfl, topoSort_none_cycle g hw hts⟩
    | some l =>
      obtain ⟨hnd, hcomp, htopo⟩ := topoSort_some_spec g l hts
      exact Or.inl ⟨l, rfl, htopo, hnd, hcomp⟩
  · intro hts pl P r dt d0
    exact advance_no_order g pl P r dt d0 hts

/-- C4: after a completed step, every node's total outflow equals
α·h_new^p·√S·width_total, the outflow sent along each link equals its upstream
node's total multiplied by the link's routing fraction, and every node's total
inflow equals the sum of the per-link contributions of its upstream
neighbors, evaluated on the final published outflow field. -/
theorem discharge_fields_spec (g : RoutingGraph) (pl : PowLaw)
    (P : SolverParams) (r : List ℚ) (dt : ℚ) (d0 : List ℚ) (res : StepResult)
    (hok : advance g pl P r dt d0 = Except.ok res)
    (hlen : d0.length = g.numNodes) :
    ∀ v, v < g.numNodes →
      res.outflow.getD v 0
          = alphaOf P * pl.pw (res.depth.getD v 0) * swsum g v ∧
      (∀ lk ∈ g.links, linkDischarge res.outflow lk
          = res.outflow.getD lk.src 0 * lk.frac) ∧
      res.inflow.getD v 0
          = ((g.links.filter (fun lk => lk.dst == v)).map
              (linkDischarge res.outflow)).sum := by
  intro v hv
  have hchar := advance_processed g pl P r dt d0 res hok hlen v hv
  exact ⟨hchar.2.2.1, fun lk _ => rfl, hchar.1⟩

/-- C5: after every completed step all stored depths are nonnegative (negative
solver results are floored to zero before publication), and cutting the
runoff to zero for the following step neither fails nor produces a negative
depth there. -/
theorem depth_nonneg_after_step (g : RoutingGraph) (pl : PowLaw)
    (P : SolverParams) (r : List ℚ) (dt : ℚ) (d0 : List ℚ) (res : StepResult)
    (hok : advance g pl P r dt d0 = Except.ok res)
    (hlen : d0.length = g.numNodes) :
    (∀ x ∈ res.depth, 0 ≤ x) ∧
    ∃ res2, advance g pl P (List.replicate g.numNodes 0) dt res.depth
        = Except.ok res2 ∧ ∀ x ∈ res2.depth, 0 ≤ x := by
  obtain ⟨ord, hts, _, _⟩ := advance_ok_elim g pl P r dt d0 res hok
  have hlen2 : res.depth.length = g.numNodes := by
    rw [(advance_lengths g pl P r dt d0 res hok).1, hlen]
  have hzero : ∀ x ∈ List.replicate g.numNodes (0 : ℚ), 0 ≤ x := by
    intro x hx
    rw [List.eq_of_mem_replicate hx]
  have hok2 : advance g pl P (List.replicate g.numNodes 0) dt res.depth
      = Except.ok (sweep g pl P dt
          ((List.replicate g.numNodes 0).map mmhrToMs) ord res.depth) :=
    (advance_eq_step g pl P _ dt res.depth ord hts).trans
      (runOneStep_ok g ord pl P _ dt res.depth hzero)
  exact ⟨advance_depth_mem_nonneg g pl P r dt d0 res hok hlen,
    ⟨_, hok2, advance_depth_mem_nonneg g pl P _ dt res.depth _ hok2 hlen2⟩⟩

/-- C6: a step never aborts because of a node's slow convergence — given a
valid order and nonnegative runoff the step always completes — and every node
whose Newton iteration did not meet tolerance within the budget is flagged in
the NonConvergence warning list with its depth clamped to the (zero-floored)
last iterate. -/
theorem nonconvergence_recovery (g : RoutingGraph) (pl : PowLaw)
    (P : SolverParams) (r : List ℚ) (dt : ℚ) (d0 : List ℚ)
    (hts : topoSort g ≠ none) (hr : ∀ x ∈ r, 0 ≤ x)
    (hlen : d0.length = g.numNodes) :
    ∃ res, advance g pl P r dt d0 = Except.ok res ∧
      ∀ v, v < g.numNodes →
        (newtonSolve pl P (cOf g P dt v) (bOf g dt r d0 res.outflow v)
            (d0.getD v 0)).2 = false →
          v ∈ res.warnings ∧
          res.depth.getD v 0 = max (newtonSolve pl P (cOf g P dt v)
              (bOf g dt r d0 res.outflow v) (d0.getD v 0)).1 0 := by
  cases hts2 : topoSort g with
  | none => exact absurd hts2 hts
  | some ord =>
    have hok : advance g pl P r dt d0
        = Except.ok (sweep g pl P dt (r.map mmhrToMs) ord d0) :=
      (advance_eq_step g pl P r dt d0 ord hts2).trans
        (runOneStep_ok g ord pl P r dt d0 hr)
    refine ⟨_, hok, ?_⟩
    intro v hv hnc
    have hchar := advance_processed g pl P r dt d0 _ hok hlen v hv
    exact ⟨hchar.2.2.2.mpr hnc, hchar.2.1⟩

/-- C7: a node with zero runoff and zero inflow never gains depth in a step:
the published depth is at most the previous depth (drainage-only decay). -/
theorem drainage_decay (g : RoutingGraph) (pl : PowLaw) (P : SolverParams)
    (r : List ℚ) (dt : ℚ) (d0 : List ℚ) (res : StepResult) (v : ℕ)
    (hpl : PowLawOK pl) (hw : WellFormed g) (hlen : d0.length = g.numNodes)
    (hv : v < g.numNodes) (hdt : 0 ≤ dt) (hrough : 0 ≤ P.roughness)
    (hrel : 0 ≤ P.relTol) (hd0 : ∀ x ∈ d0, 0 ≤ x)
    (hok : advance g pl P r dt d0 = Except.ok res)
    (hr0 : r.getD v 0 = 0) (hq0 : res.inflow.getD v 0 = 0) :
    res.depth.getD v 0 ≤ d0.getD v 0 := by
  have hchar := advance_processed g pl P r dt d0 res hok hlen v hv
  rw [hchar.1] at hq0
  have hb : bOf g dt r d0 res.outflow v = d0.getD v 0 := by
    unfold bOf
    rw [hr0, hq0]
    simp [mmhrToMs]
  rw [hchar.2.1, hb]
  have hdrain := newtonSolve_drain pl hpl P (cOf g P dt v) (d0.getD v 0)
    (cOf_nonneg g P dt v hw hdt hrough) (getD_nonneg hd0 v) hrel
  exact max_le hdrain (getD_nonneg hd0 v)

/-- C8: a node with zero previous depth, zero runoff, and zero inflow comes
out of the step with depth exactly zero — the convergence test accepts the
zero state before any Newton update, so no artificial residue appears. -/
theorem zero_input_idempotence (g : RoutingGraph) (pl : PowLaw)
    (P : SolverParams) (r : List ℚ) (dt : ℚ) (d0 : List ℚ) (res : StepResult)
    (v : ℕ) (hpw0 : pl.pw 0 = 0) (hlen : d0.length = g.numNodes)
    (hv : v < g.numNodes)
    (hok : advance g pl P r dt d0 = Except.ok res)
    (h00 : d0.getD v 0 = 0) (hr0 : r.getD v 0 = 0)
    (hq0 : res.inflow.getD v 0 = 0) :
    res.depth.getD v 0 = 0 := by
  have hchar := advance_processed g pl P r dt d0 res hok hlen v hv
  rw [hchar.1] at hq0
  have hb : bOf g dt r d0 res.outflow v = 0 := by
    unfold bOf
    rw [h00, hr0, hq0]
    simp [mmhrToMs]
  rw [hchar.2.1, hb, h00, newtonSolve_zero pl hpw0 P (cOf g P dt v)]
  simp

/-- C9: the engine converts every supplied runoff intensity from mm/hr to m/s
by dividing by exactly 3.6×10^6 (an exact rational operation inverted exactly
by multiplication), performs this conversion on the whole rate array before
the sweep of every step, and every step of a multi-step simulation is such a
step chained on the previous depth field. -/
theorem runoff_unit_conversion (g : RoutingGraph) (pl : PowLaw)
    (P : SolverParams) (dt : ℚ) :
    (∀ x : ℚ, mmhrToMs x = x / 3600000 ∧ mmhrToMs x * 3600000 = x) ∧
    (∀ (ord : List ℕ) (r d0 : List ℚ), (∀ x ∈ r, 0 ≤ x) →
      runOneStep g ord pl P r dt d0
        = Except.ok (sweep g pl P dt (r.map mmhrToMs) ord d0)) ∧
    (∀ r rs d0 out, simulate g pl P dt (r :: rs) d0 = Except.ok out →
      ∃ res ress, advance g pl P r dt d0 = Except.ok res ∧
        simulate g pl P dt rs res.depth = Except.ok ress ∧ out = res :: ress) := by
  refine ⟨?_, ?_, ?_⟩
  · intro x
    refine ⟨rfl, ?_⟩
    unfold mmhrToMs
    exact div_mul_cancel₀ x (by norm_num)
  · intro ord r d0 hr
    exact runOneStep_ok g ord pl P r dt d0 hr
  · intro r rs d0 out h
    exact simulate_cons_elim g pl P dt r rs d0 out h

/-- Witness for C1: a step of the core on the two-node graph with runoff
rates zero and 87 mm/hr. -/
theorem runoff_validation_witness :
    ((∀ x ∈ ([0, 87] : List ℚ), 0 ≤ x) →
      ∃ res, runOneStep gTwo [0, 1] sqLaw pTest [0, 87] 500 [0, 0]
        = Except.ok res) ∧
    (runOneStep gTwo [0, 1] sqLaw pTest [0, 87] 500 [0, 0]
        = Except.error HydroError.negativeRunoff
      ↔ ∃ x ∈ ([0, 87] : List ℚ), x < 0) :=
  runoff_validation gTwo [0, 1] sqLaw pTest [0, 87] 500 [0, 0]

/-- Witness for C9 at the concrete two-node configuration. -/
theorem runoff_unit_conversion_witness :
    (∀ x : ℚ, mmhrToMs x = x / 3600000 ∧ mmhrToMs x * 3600000 = x) ∧
    (∀ (ord : List ℕ) (r d0 : List ℚ), (∀ x ∈ r, 0 ≤ x) →
      runOneStep gTwo ord sqLaw pTest r 500 d0
        = Except.ok (sweep gTwo sqLaw pTest 500 (r.map mmhrToMs) ord d0)) ∧
    (∀ r rs d0 out, simulate gTwo sqLaw pTest 500 (r :: rs) d0 = Except.ok out →
      ∃ res ress, advance gTwo sqLaw pTest r 500 d0 = Except.ok res ∧
        simulate gTwo sqLaw pTest 500 rs res.depth = Except.ok ress ∧
        out = res :: ress) :=
  runoff_unit_conversion gTwo sqLaw pTest 500

/-! ## Concrete evaluations: the C10 driver theorem, the C2 counterexample,
and the witnesses.  The Batteries rational arithmetic operations are marked
irreducible; they are made semireducible locally so the evaluations reduce. -/

section ConcreteEvaluations

attribute [local semireducible] Rat.add Rat.mul Rat.sub Rat.inv Rat.ofScientific

set_option maxRecDepth 200000

/-- C10: in the driver notebook's hydrograph loop, the runoff rate assigned in
the same iteration before each run_one_step call is strictly positive at every
one of the calls — 87 mm/hr for the 11 iterations within the storm duration
and 1e-20 afterwards for the remaining 18 — so the component's
positive-runoff assertion is never violated from that loop. -/
theorem driver_loop_positive_runoff :
    (∀ x ∈ hydrographCallRates, 0 < x) ∧
    hydrographCallRates.all runoffAssertionPasses = true ∧
    hydrographCallRates
      = List.replicate 11 87 ++ List.replicate 18 (1 / 10 ^ 20) := by
  refine ⟨by decide, by decide, by decide⟩

/-- C2 counterexample: in the concrete two-node step behind resC2 (two Newton
rounds), the step completes, but the depth published for node 0 violates the
convergence tolerance of its backward-Euler equation: the iteration budget was
exhausted and the clamped last iterate was published as the claim C6 path
prescribes. -/
theorem perNode_equation_cex :
    advance gTwo sqLaw pTest [0, 0] 1 [4, 0] = Except.ok resC2 ∧
    ¬ (|resid sqLaw (cOf gTwo pTest 1 0) (bOf gTwo 1 [0, 0] [4, 0] resC2.outflow 0)
        (resC2.depth.getD 0 0)|
      ≤ tolOf pTest (bOf gTwo 1 [0, 0] [4, 0] resC2.outflow 0)) :=
  ⟨except_toOption_ok (by decide), by decide⟩

/-- Witness for the amended C2 at node 1 of the resC2 step, whose Newton
iteration converged. -/
theorem perNode_equation_converged_witness :
    0 ≤ resC2.depth.getD 1 0 ∧
    |resid sqLaw (cOf gTwo pTest 1 1) (bOf gTwo 1 [0, 0] [4, 0] resC2.outflow 1)
        (resC2.depth.getD 1 0)|
      ≤ tolOf pTest (bOf gTwo 1 [0, 0] [4, 0] resC2.outflow 1) :=
  perNode_equation_converged gTwo sqLaw pTest [0, 0] 1 [4, 0] resC2 1 sqLaw_ok
    (by decide) (by decide) (by decide) (by decide) (by decide) (by decide)
    (by decide) (except_toOption_ok (by decide)) (by decide)

/-- Witness for C3 on the concrete three-node chain. -/
theorem routing_order_builder_spec_witness :
    ((∃ l, topoSort gChain = some l ∧ isTopoOrder gChain l ∧ l.Nodup ∧
        (∀ v, v ∈ l ↔ v < gChain.numNodes)) ∨
      (topoSort gChain = none ∧ HasCycle gChain)) ∧
    (topoSort gChain = none → ∀ pl P r dt d0,
      advance gChain pl P r dt d0 = Except.error HydroError.invalidTopology) :=
  routing_order_builder_spec gChain (by decide)

/-- Witness for C4 on the three-node chain, including the explicit chain
check: node 2's published inflow equals node 1's published outflow times the
1/2 routing fraction of the connecting link. -/
theorem discharge_fields_spec_witness :
    (∀ v, v < gChain.numNodes →
      resChain.outflow.getD v 0
          = alphaOf pTest * sqLaw.pw (resChain.depth.getD v 0) * swsum gChain v ∧
      (∀ lk ∈ gChain.links, linkDischarge resChain.outflow lk
          = resChain.outflow.getD lk.src 0 * lk.frac) ∧
      resChain.inflow.getD v 0
          = ((gChain.links.filter (fun lk => lk.dst == v)).map
              (linkDischarge resChain.outflow)).sum) ∧
    resChain.inflow.getD 2 0 = resChain.outflow.getD 1 0 * (1 / 2) :=
  ⟨discharge_fields_spec gChain sqLaw pTest [3600000, 3600000, 3600000] 1
      [0, 0, 0] resChain (except_toOption_ok (by decide)) (by decide),
    by decide⟩

/-- Witness for C5 on the storm scenario: 87 mm/hr for a 500 s step from the
dry state, then runoff cut to zero for the following step. -/
theorem depth_nonneg_after_step_witness :
    (∀ x ∈ resW5.depth, 0 ≤ x) ∧
    ∃ res2, advance gTwo sqLaw pTest (List.replicate gTwo.numNodes 0) 500
        resW5.depth = Except.ok res2 ∧ ∀ x ∈ res2.depth, 0 ≤ x :=
  depth_nonneg_after_step gTwo sqLaw pTest [87, 87] 500 [0, 0] resW5
    (except_toOption_ok (by decide)) (by decide)

/-- Witness for C6 on the two-node step whose node 0 exhausts the two-round
iteration budget. -/
theorem nonconvergence_recovery_witness :
    ∃ res, advance gTwo sqLaw pTest [0, 0] 1 [4, 0] = Except.ok res ∧
      ∀ v, v < gTwo.numNodes →
        (newtonSolve sqLaw pTest (cOf gTwo pTest 1 v)
            (bOf gTwo 1 [0, 0] [4, 0] res.outflow v)
            (([4, 0] : List ℚ).getD v 0)).2 = false →
          v ∈ res.warnings ∧
          res.depth.getD v 0 = max (newtonSolve sqLaw pTest (cOf gTwo pTest 1 v)
              (bOf gTwo 1 [0, 0] [4, 0] res.outflow v)
              (([4, 0] : List ℚ).getD v 0)).1 0 :=
  nonconvergence_recovery gTwo sqLaw pTest [0, 0] 1 [4, 0] (by decide)
    (by decide) (by decide)

/-- Witness for C7: with no runoff and no inflow, node 0 of the resW7 step
does not gain depth. -/
theorem drainage_decay_witness :
    resW7.depth.getD 0 0 ≤ ([1, 0] : List ℚ).getD 0 0 :=
  drainage_decay gTwo sqLaw pTest [0, 0] 1 [1, 0] resW7 0 sqLaw_ok (by decide)
    (by decide) (by decide) (by decide) (by decide) (by decide) (by decide)
    (except_toOption_ok (by decide)) (by decide) (by decide)

/-- Witness for C8: the fully dry, zero-input node of the resW8 step keeps
depth exactly zero. -/
theorem zero_input_idempotence_witness :
    resW8.depth.getD 0 0 = 0 :=
  zero_input_idempotence gTwo sqLaw pTest [0, 0] 1 [0, 0] resW8 0 (by decide)
    (by decide) (by decide) (except_toOption_ok (by decide)) (by decide)
    (by decide) (by decide)

end ConcreteEvaluations

end Kinwave
